import Mathlib

/-!
Verification of the text-to-ADF converter of `src/lib/jira-formatter.ts`
(class `JiraFormatter`: `textToADF`, `parseTextToADFContent`,
`parseInlineFormatting`).

Strings are modelled as lists of Unicode scalar values (`List Char`);
JavaScript string operations used by the source (`split('\n')`, `trim()`,
`startsWith`, `substring`, `indexOf`, `match` against the anchored regexes
`/^#+/`, `/^[-*]\s/`, `/^\d+\.\s/`) are translated explicitly below.
The two scan loops of the source advance an index by at least one position
per iteration; they are embedded structurally with a fuel argument that is
initialised to the input length, which the loop never exhausts (each step
consumes at least one element, so the remaining input is always bounded by
the fuel).
-/

namespace JiraFormatter

/-- Strings as lists of characters. -/
abbrev Str := List Char

/-- Character list of a Lean string literal. -/
def str (s : String) : Str := s.toList

/-- The backtick character (code point 96). -/
def btk : Char := Char.ofNat 96

/-- JavaScript whitespace (the set recognised by `String.prototype.trim` and
by the regex class `\s`): tab, LF, VT, FF, CR, space, NBSP, and the Unicode
space separators plus line/paragraph separators and the BOM. -/
def isWS (c : Char) : Bool :=
  c == ' ' || c == '\t' || c == '\n' || c == '\r' || c == '\x0b' || c == '\x0c' ||
  c == Char.ofNat 0xA0 || c == Char.ofNat 0x1680 ||
  (decide (Char.ofNat 0x2000 ≤ c) && decide (c ≤ Char.ofNat 0x200A)) ||
  c == Char.ofNat 0x2028 || c == Char.ofNat 0x2029 || c == Char.ofNat 0x202F ||
  c == Char.ofNat 0x205F || c == Char.ofNat 0x3000 || c == Char.ofNat 0xFEFF

/-- JavaScript `String.prototype.trim`: drop whitespace from both ends. -/
def jsTrim (s : Str) : Str :=
  ((s.dropWhile isWS).reverse.dropWhile isWS).reverse

/-- JavaScript `text.split('\n')`: split on every newline; a string with `n`
newlines yields `n + 1` pieces (so the result is never empty). -/
def splitNL : Str → List Str
  | [] => [[]]
  | c :: rest =>
    if c = '\n' then [] :: splitNL rest
    else
      match splitNL rest with
      | [] => [[c]]
      | g :: gs => (c :: g) :: gs

/-- JavaScript `Array.prototype.join('\n')`. -/
def joinNL : List Str → Str
  | [] => []
  | [x] => x
  | x :: rest => x ++ '\n' :: joinNL rest

/-- Attribute records appearing in the source: `{ language: string }` on
code blocks and `{ level: number }` on headings. -/
inductive Attrs where
  | language (l : Str)
  | level (n : Nat)
deriving DecidableEq

/-- The `ADFNode` interface of the source: a node type plus optional
version, attributes, child content, text and marks (each mark is a record
`{ type: string }`, modelled by its type string). -/
inductive ADFNode where
  | node (ty : Str) (version : Option Nat) (attrs : Option Attrs)
      (content : Option (List ADFNode)) (text : Option Str)
      (marks : Option (List Str))

mutual

/-- Decidable equality of nodes (the automatic derivation does not handle
the nested `Option (List ADFNode)` field, so it is spelled out). -/
def decEqADFNode : (a b : ADFNode) → Decidable (a = b)
  | .node t1 v1 a1 c1 x1 m1, .node t2 v2 a2 c2 x2 m2 =>
    match decEq t1 t2 with
    | isFalse h => isFalse (by intro hh; cases hh; exact h rfl)
    | isTrue h1 =>
      match decEq v1 v2 with
      | isFalse h => isFalse (by intro hh; cases hh; exact h rfl)
      | isTrue h2 =>
        match decEq a1 a2 with
        | isFalse h => isFalse (by intro hh; cases hh; exact h rfl)
        | isTrue h3 =>
          match decEqOptList c1 c2 with
          | isFalse h => isFalse (by intro hh; cases hh; exact h rfl)
          | isTrue h4 =>
            match decEq x1 x2 with
            | isFalse h => isFalse (by intro hh; cases hh; exact h rfl)
            | isTrue h5 =>
              match decEq m1 m2 with
              | isFalse h => isFalse (by intro hh; cases hh; exact h rfl)
              | isTrue h6 => isTrue (by rw [h1, h2, h3, h4, h5, h6])

/-- Decidable equality of optional node lists. -/
def decEqOptList : (a b : Option (List ADFNode)) → Decidable (a = b)
  | none, none => isTrue rfl
  | some a, some b =>
    match decEqList a b with
    | isTrue h => isTrue (by rw [h])
    | isFalse h => isFalse (by intro hh; cases hh; exact h rfl)
  | none, some _ => isFalse (by intro h; cases h)
  | some _, none => isFalse (by intro h; cases h)

/-- Decidable equality of node lists. -/
def decEqList : (a b : List ADFNode) → Decidable (a = b)
  | [], [] => isTrue rfl
  | a :: as, b :: bs =>
    match decEqADFNode a b with
    | isFalse h => isFalse (by intro hh; cases hh; exact h rfl)
    | isTrue h1 =>
      match decEqList as bs with
      | isFalse h => isFalse (by intro hh; cases hh; exact h rfl)
      | isTrue h2 => isTrue (by rw [h1, h2])
  | [], _ :: _ => isFalse (by intro h; cases h)
  | _ :: _, [] => isFalse (by intro h; cases h)

end

instance : DecidableEq ADFNode := decEqADFNode

/-- The `type` field of a node. -/
def ADFNode.getType : ADFNode → Str
  | .node ty _ _ _ _ _ => ty

/-- The `version` field of a node. -/
def ADFNode.getVersion : ADFNode → Option Nat
  | .node _ v _ _ _ _ => v

/-- The `content` field of a node. -/
def ADFNode.getContent : ADFNode → Option (List ADFNode)
  | .node _ _ _ c _ _ => c

/-- A plain text node `{ type: 'text', text }` with no marks. -/
def plainNode (t : Str) : ADFNode := .node (str "text") none none none (some t) none

/-- A text node carrying a single mark `{ type: m }`. -/
def markNode (m : Str) (t : Str) : ADFNode :=
  .node (str "text") none none none (some t) (some [m])

/-- Inline code run: text node with mark `code`. -/
def codeNode (t : Str) : ADFNode := markNode (str "code") t

/-- Bold run: text node with mark `strong`. -/
def boldNode (t : Str) : ADFNode := markNode (str "strong") t

/-- Italic run: text node with mark `em`. -/
def emNode (t : Str) : ADFNode := markNode (str "em") t

/-- A `{ type: 'paragraph', content }` node. -/
def paragraphNode (runs : List ADFNode) : ADFNode :=
  .node (str "paragraph") none none (some runs) none none

/-- A `{ type: 'heading', attrs: { level }, content: [text] }` node; the
source stores the raw heading text as a single unmarked text node. -/
def headingNode (level : Nat) (t : Str) : ADFNode :=
  .node (str "heading") none (some (.level level)) (some [plainNode t]) none none

/-- A `{ type: 'codeBlock', attrs: { language }, content: [text] }` node. -/
def codeBlockNode (lang : Str) (t : Str) : ADFNode :=
  .node (str "codeBlock") none (some (.language lang)) (some [plainNode t]) none none

/-- A `{ type: 'listItem', content: [paragraph] }` node. -/
def listItemNode (runs : List ADFNode) : ADFNode :=
  .node (str "listItem") none none (some [paragraphNode runs]) none none

/-- A `{ type: 'bulletList', content: items }` node. -/
def bulletListNode (items : List ADFNode) : ADFNode :=
  .node (str "bulletList") none none (some items) none none

/-- A `{ type: 'orderedList', content: items }` node. -/
def orderedListNode (items : List ADFNode) : ADFNode :=
  .node (str "orderedList") none none (some items) none none

/-- The `flushText` closure of `parseInlineFormatting`: push the accumulated
plain text as an unmarked text node when it is non-empty. -/
def flushText (acc : Str) (content : List ADFNode) : List ADFNode :=
  if acc = [] then content else content ++ [plainNode acc]

/-- JavaScript `text.indexOf('**', start)` on the suffix after a `**`
opener: split the list at the first occurrence of two consecutive stars,
returning the part before and the part after the pair. -/
def splitBold : Str → Option (Str × Str)
  | '*' :: '*' :: rest => some ([], rest)
  | c :: rest => (splitBold rest).map (fun p => (c :: p.1, p.2))
  | [] => none

/-- The `while (i < text.length)` loop of `parseInlineFormatting`.
`t` is the text after position `i`, `acc` is `currentText`, `content` the
emitted nodes. Branches mirror the source in order:
backtick (code span, or consume-to-end when unclosed), `**` (bold when a
closing `**` exists, otherwise `flushText` ran and the star is taken
literally), single `*` (italic when a closing `*` exists, otherwise
`flushText` ran and the star is taken literally), regular character.
The fuel is initialised to `t.length` by `parseInlineFormatting`; every
step consumes at least one character, so the fuel-exhausted default is
never reached from that entry point. -/
def inlineLoop : Nat → Str → Str → List ADFNode → List ADFNode
  | _, [], acc, content => flushText acc content
  | 0, _ :: _, acc, content => flushText acc content
  | fuel + 1, c :: rest, acc, content =>
    if c = btk ∧ rest.head? ≠ some btk then
      inlineLoop fuel ((rest.dropWhile (fun ch => ch != btk)).drop 1) []
        (flushText acc content ++ [codeNode (rest.takeWhile (fun ch => ch != btk))])
    else if c = '*' ∧ rest.head? = some '*' then
      match splitBold rest.tail with
      | some p => inlineLoop fuel p.2 [] (flushText acc content ++ [boldNode p.1])
      | none => inlineLoop fuel rest ['*'] (flushText acc content)
    else if c = '*' ∧ rest.head? ≠ some '*' then
      if '*' ∈ rest then
        inlineLoop fuel ((rest.dropWhile (fun ch => ch != '*')).drop 1) []
          (flushText acc content ++ [emNode (rest.takeWhile (fun ch => ch != '*'))])
      else
        inlineLoop fuel rest ['*'] (flushText acc content)
    else
      inlineLoop fuel rest (acc ++ [c]) content

/-- `JiraFormatter.parseInlineFormatting`: run the scan loop and fall back
to a single unmarked text node carrying the whole input when nothing was
emitted. -/
def parseInlineFormatting (text : Str) : List ADFNode :=
  let content := inlineLoop text.length text [] []
  if 0 < content.length then content else [plainNode text]

/-- Mutable scan state of `parseTextToADFContent`: the emitted blocks, the
paragraph line buffer, the code-fence flag, the code line buffer and the
captured language tag. -/
structure SegState where
  content : List ADFNode
  currentParagraph : List Str
  inCodeBlock : Bool
  codeBlockContent : List Str
  codeBlockLanguage : Str
deriving DecidableEq

/-- The initial scan state. -/
def initState : SegState := ⟨[], [], false, [], []⟩

/-- The `flushParagraph` closure: when the paragraph buffer is non-empty,
join it with newlines, trim, and (when the trimmed text is non-empty) emit
one paragraph block whose runs come from `parseInlineFormatting`; the
buffer is cleared in either case. -/
def flushParagraph (st : SegState) : SegState :=
  if st.currentParagraph = [] then st
  else
    let paragraphText := jsTrim (joinNL st.currentParagraph)
    if paragraphText = [] then { st with currentParagraph := [] }
    else
      { st with
        content := st.content ++ [paragraphNode (parseInlineFormatting paragraphText)],
        currentParagraph := [] }

/-- The `flushCodeBlock` closure: when the code buffer is non-empty, emit
one code block whose literal text is the buffered lines joined by newline
(language defaulting to `text` when the tag is empty) and clear the code
state; when the buffer is empty it does nothing. -/
def flushCodeBlock (st : SegState) : SegState :=
  if st.codeBlockContent = [] then st
  else
    { st with
      content := st.content ++
        [codeBlockNode (if st.codeBlockLanguage = [] then str "text" else st.codeBlockLanguage)
          (joinNL st.codeBlockContent)],
      codeBlockContent := [],
      codeBlockLanguage := [] }

/-- JavaScript `trimmedLine.startsWith('```')`. -/
def isFence (s : Str) : Bool := decide (s.take 3 = [btk, btk, btk])

/-- JavaScript `trimmedLine.startsWith('#')`. -/
def isHeading (s : Str) : Bool := s.head? == some '#'

/-- The regex test `/^[-*]\s/`: first character `-` or `*`, second a
whitespace character. -/
def bulletMatch : Str → Bool
  | c :: d :: _ => (c == '-' || c == '*') && isWS d
  | _ => false

/-- The regex test `/^\d+\.\s/`: one or more digits, a dot, a whitespace
character. -/
def numMatch (s : Str) : Bool :=
  let ds := s.takeWhile Char.isDigit
  !ds.isEmpty &&
    match s.drop ds.length with
    | '.' :: w :: _ => isWS w
    | _ => false

/-- The grouping test `lines[j]?.trim().match(/^[-*]\s/)` on a raw line. -/
def bulletLine (l : Str) : Bool := bulletMatch (jsTrim l)

/-- The grouping test `lines[j]?.trim().match(/^\d+\.\s/)` on a raw line. -/
def numLine (l : Str) : Bool := numMatch (jsTrim l)

/-- The regex replace `/^\d+\.\s/` with `''`: drop the digits, the dot and
one whitespace character. -/
def numStrip (s : Str) : Str := s.drop ((s.takeWhile Char.isDigit).length + 2)

/-- The `for` loop of `parseTextToADFContent` over the split lines.
Branches mirror the source in order: the `if (!line) continue` guard that
skips empty lines (before any other handling, including inside code
blocks), fence toggling, verbatim accumulation inside a code block,
headings (level clamped to 6, raw remainder text), greedy bullet grouping,
greedy ordered grouping, the blank-line paragraph flush, and paragraph
accumulation. The fuel is initialised to the number of lines; every step
consumes at least one line, so the fuel-exhausted default is never reached
from `parseTextToADFContent`. -/
def segLoop : Nat → List Str → SegState → SegState
  | _, [], st => st
  | 0, _ :: _, st => st
  | fuel + 1, line :: rest, st =>
    if line = [] then segLoop fuel rest st
    else
      let trimmedLine := jsTrim line
      if isFence trimmedLine then
        if st.inCodeBlock then
          segLoop fuel rest { flushCodeBlock st with inCodeBlock := false }
        else
          let st1 := flushParagraph st
          segLoop fuel rest
            { st1 with inCodeBlock := true, codeBlockLanguage := jsTrim (trimmedLine.drop 3) }
      else if st.inCodeBlock then
        segLoop fuel rest { st with codeBlockContent := st.codeBlockContent ++ [line] }
      else if isHeading trimmedLine then
        let st1 := flushParagraph st
        segLoop fuel rest
          { st1 with
            content := st1.content ++
              [headingNode (min 6 (trimmedLine.takeWhile (fun c => c == '#')).length)
                ((trimmedLine.dropWhile (fun c => c == '#')).dropWhile isWS)] }
      else if bulletLine line then
        let st1 := flushParagraph st
        let items := ((line :: rest).takeWhile bulletLine).map
          (fun l => listItemNode (parseInlineFormatting ((jsTrim l).drop 2)))
        segLoop fuel ((line :: rest).dropWhile bulletLine)
          { st1 with content := st1.content ++ [bulletListNode items] }
      else if numLine line then
        let st1 := flushParagraph st
        let items := ((line :: rest).takeWhile numLine).map
          (fun l => listItemNode (parseInlineFormatting (numStrip (jsTrim l))))
        segLoop fuel ((line :: rest).dropWhile numLine)
          { st1 with content := st1.content ++ [orderedListNode items] }
      else if trimmedLine = [] then segLoop fuel rest (flushParagraph st)
      else segLoop fuel rest { st with currentParagraph := st.currentParagraph ++ [line] }

/-- `JiraFormatter.parseTextToADFContent`: split on newlines, run the line
loop, flush the pending paragraph and the pending (possibly unterminated)
code block, and fall back to a single empty paragraph when no block was
produced. -/
def parseTextToADFContent (text : Str) : List ADFNode :=
  let lines := splitNL text
  let st := flushCodeBlock (flushParagraph (segLoop lines.length lines initState))
  if 0 < st.content.length then st.content else [paragraphNode [plainNode []]]

/-- `JiraFormatter.textToADF`: wrap the parsed content in the document
envelope `{ type: 'doc', version: 1, content }`. -/
def textToADF (text : Str) : ADFNode :=
  .node (str "doc") (some 1) none (some (parseTextToADFContent text)) none none

/-- A `takeWhile` whose predicate holds on every element keeps the list. -/
theorem takeWhile_of_all {p : Char → Bool} :
    ∀ {s : Str}, (∀ c ∈ s, p c = true) → s.takeWhile p = s
  | [], _ => rfl
  | c :: rest, h => by
    rw [List.takeWhile_cons, h c (List.mem_cons_self c rest)]
    exact congrArg (c :: ·) (takeWhile_of_all fun x hx => h x (List.mem_cons_of_mem c hx))

/-- A `dropWhile` whose predicate holds on every element drops the list. -/
theorem dropWhile_of_all {p : Char → Bool} :
    ∀ {s : Str}, (∀ c ∈ s, p c = true) → s.dropWhile p = []
  | [], _ => rfl
  | c :: rest, h => by
    rw [List.dropWhile_cons, h c (List.mem_cons_self c rest)]
    exact dropWhile_of_all fun x hx => h x (List.mem_cons_of_mem c hx)

/-- A `takeWhile` over an append passes a fully satisfying first part. -/
theorem takeWhile_append_of_all {p : Char → Bool} :
    ∀ {s : Str} (t : Str), (∀ c ∈ s, p c = true) →
      (s ++ t).takeWhile p = s ++ t.takeWhile p
  | [], t, _ => rfl
  | c :: rest, t, h => by
    rw [List.cons_append, List.takeWhile_cons, h c (List.mem_cons_self c rest)]
    exact congrArg (c :: ·)
      (takeWhile_append_of_all t fun x hx => h x (List.mem_cons_of_mem c hx))

/-- A `dropWhile` over an append skips a fully satisfying first part. -/
theorem dropWhile_append_of_all {p : Char → Bool} :
    ∀ {s : Str} (t : Str), (∀ c ∈ s, p c = true) →
      (s ++ t).dropWhile p = t.dropWhile p
  | [], t, _ => rfl
  | c :: rest, t, h => by
    rw [List.cons_append, List.dropWhile_cons, h c (List.mem_cons_self c rest)]
    exact dropWhile_append_of_all t fun x hx => h x (List.mem_cons_of_mem c hx)

/-- Every character of every piece of `splitNL t` is a character of `t`. -/
theorem splitNL_chars : ∀ (t : Str), ∀ l ∈ splitNL t, ∀ c ∈ l, c ∈ t := by
  intro t
  induction t with
  | nil =>
    intro l hl c hc
    simp only [splitNL, List.mem_singleton] at hl
    subst hl
    cases hc
  | cons a rest ih =>
    intro l hl c hc
    by_cases ha : a = '\n'
    · rw [splitNL, if_pos ha] at hl
      rcases List.mem_cons.mp hl with h | h
      · subst h; cases hc
      · exact List.mem_cons_of_mem a (ih l h c hc)
    · rw [splitNL, if_neg ha] at hl
      rcases hg : splitNL rest with _ | ⟨g, gs⟩
      · rw [hg] at hl
        rcases List.mem_singleton.mp hl
        rcases List.mem_singleton.mp hc
        exact List.mem_cons_self a rest
      · rw [hg] at hl
        rcases List.mem_cons.mp hl with h | h
        · subst h
          rcases List.mem_cons.mp hc with h | h
          · subst h; exact List.mem_cons_self c rest
          · exact List.mem_cons_of_mem a (ih g (hg ▸ List.mem_cons_self g gs) c h)
        · exact List.mem_cons_of_mem a (ih l (hg ▸ List.mem_cons_of_mem g h) c hc)

/-- A string with no newline splits into itself alone. -/
theorem splitNL_no_newline : ∀ {t : Str}, '\n' ∉ t → splitNL t = [t]
  | [], _ => rfl
  | a :: rest, h => by
    have ha : a ≠ '\n' := fun e => h (e ▸ List.mem_cons_self a rest)
    have hr : splitNL rest = [rest] :=
      splitNL_no_newline fun hc => h (List.mem_cons_of_mem a hc)
    rw [splitNL, if_neg ha, hr]

/-- Trimming an all-whitespace string gives the empty string. -/
theorem jsTrim_of_ws {l : Str} (h : ∀ c ∈ l, isWS c = true) : jsTrim l = [] := by
  unfold jsTrim
  rw [dropWhile_of_all h]
  rfl

/-- Lines consisting only of whitespace leave the scan state untouched:
empty lines are skipped by the `if (!line)` guard and the rest trim to the
empty string and hit the blank-line flush, which is a no-op on an empty
paragraph buffer. -/
theorem segLoop_ws : ∀ (lines : List Str), (∀ l ∈ lines, ∀ c ∈ l, isWS c = true) →
    ∀ fuel, segLoop fuel lines initState = initState := by
  intro lines
  induction lines with
  | nil => intro _ fuel; cases fuel <;> rfl
  | cons line rest ih =>
    intro h fuel
    cases fuel with
    | zero => rfl
    | succ f =>
      have hrest := fun l hl => h l (List.mem_cons_of_mem line hl)
      by_cases hl : line = []
      · rw [segLoop, if_pos hl]
        exact ih hrest f
      · have htrim : jsTrim line = [] := jsTrim_of_ws (h line (List.mem_cons_self line rest))
        have h1 : isFence (jsTrim line) = false := by rw [htrim]; rfl
        have h2 : isHeading (jsTrim line) = false := by rw [htrim]; rfl
        have h3 : bulletLine line = false := by rw [bulletLine, htrim]; rfl
        have h4 : numLine line = false := by rw [numLine, htrim]; rfl
        rw [segLoop, if_neg hl]
        simp only [h1, h2, h3, h4, htrim, Bool.false_eq_true, if_false, initState,
          Bool.false_eq_true]
        simp only [flushParagraph, initState, if_pos rfl]
        exact ih hrest f

/-- A text of characters that are neither a backtick nor a star is consumed
by the regular-character branch alone, extending the accumulator. -/
theorem inlineLoop_plain : ∀ (t : Str) (fuel : Nat) (acc : Str) (content : List ADFNode),
    t.length ≤ fuel → (∀ c ∈ t, c ≠ btk ∧ c ≠ '*') →
    inlineLoop fuel t acc content = flushText (acc ++ t) content := by
  intro t
  induction t with
  | nil => intro fuel acc content _ _; cases fuel <;> simp [inlineLoop]
  | cons c rest ih =>
    intro fuel acc content hf h
    cases fuel with
    | zero => exact absurd hf (by simp)
    | succ f =>
      obtain ⟨hc1, hc2⟩ := h c (List.mem_cons_self c rest)
      have hrest := fun x hx => h x (List.mem_cons_of_mem c hx)
      have hlen : rest.length ≤ f := Nat.succ_le_succ_iff.mp hf
      rw [inlineLoop, if_neg (fun hh => hc1 hh.1), if_neg (fun hh => hc2 hh.1),
        if_neg (fun hh => hc2 hh.1), ih f (acc ++ [c]) content hlen hrest,
        List.append_assoc]
      rfl

/-- C1: the conversion is a total function of its input — for every string
(empty, whitespace-only, unterminated fences or delimiters, malformed
headings or lists alike) `textToADF` is defined and returns the document
envelope normally; no input can make it fail. -/
theorem C1_conversion_total (text : Str) :
    (textToADF text).getType = str "doc" ∧ (textToADF text).getVersion = some 1 :=
  ⟨rfl, rfl⟩

/-- C2: evaluation at the failing input. The guard `if (!line) continue`
runs before the inside-code-block branch and silently drops every empty
line, so the fenced content `a`, blank, `b` is stored as `a\nb`, not as the
verbatim `a\n\nb` the claim (and the surrounding comments: the guard says
it skips `undefined` lines, which `split` never produces) require. -/
theorem C2_blank_code_line_dropped :
    parseTextToADFContent (str "```\na\n\nb\n```") =
      [codeBlockNode (str "text") (str "a\nb")] ∧
    parseTextToADFContent (str "```\na\n\nb\n```") ≠
      [codeBlockNode (str "text") (str "a\n\nb")] :=
  ⟨rfl, by decide⟩

/-- C3: evaluation at the failing input. A truly empty line hits the same
`if (!line) continue` guard before the blank-line branch can flush the
paragraph, so `a`, blank, `b` is accumulated into a single paragraph whose
text is `a\nb`, not the two separate paragraphs the claim (and the code's
own `Handle empty lines (paragraph breaks)` branch, unreachable for empty
lines) describe. -/
theorem C3_blank_line_does_not_flush :
    parseTextToADFContent (str "a\n\nb") = [paragraphNode [plainNode (str "a\nb")]] ∧
    parseTextToADFContent (str "a\n\nb") ≠
      [paragraphNode [plainNode (str "a")], paragraphNode [plainNode (str "b")]] :=
  ⟨rfl, by decide⟩

/-- C6: the mixed inline example yields exactly one paragraph whose runs
are plain, bold `bold`, plain, italic `italic`, plain, code `code`, in that
order. -/
theorem C6_inline_sequence :
    textToADF (str "plain **bold** and *italic* and `code`") =
      .node (str "doc") (some 1) none
        (some [paragraphNode
          [plainNode (str "plain "), boldNode (str "bold"), plainNode (str " and "),
           emNode (str "italic"), plainNode (str " and "), codeNode (str "code")]])
        none none :=
  rfl

/-- C10: contiguous bullet lines are grouped greedily into one list
(`- a`, `- b`, `- c` gives one bullet list with three items in order),
while a blank line fails the bullet pattern and ends the group (`- a`,
blank, `- b` gives two separate single-item bullet lists). -/
theorem C10_bullet_grouping :
    parseTextToADFContent (str "- a\n- b\n- c") =
      [bulletListNode
        [listItemNode [plainNode (str "a")], listItemNode [plainNode (str "b")],
         listItemNode [plainNode (str "c")]]] ∧
    parseTextToADFContent (str "- a\n\n- b") =
      [bulletListNode [listItemNode [plainNode (str "a")]],
       bulletListNode [listItemNode [plainNode (str "b")]]] :=
  ⟨rfl, rfl⟩

/-- C4 counterexample: on `x`-backtick-`yz` the scanner does not treat the
unmatched opening backtick as a literal character; it emits the whole
remainder `yz` as a Code-marked run (the source sets `codeEnd` to
`text.length` when `indexOf` fails and still pushes a code run). -/
theorem C4_counterexample :
    parseInlineFormatting (str "x`yz") = [plainNode (str "x"), codeNode (str "yz")] ∧
    parseInlineFormatting (str "x`yz") ≠ [plainNode (str "x`yz")] :=
  ⟨rfl, by decide⟩

/-- C7 counterexample: a fence opened and immediately closed with zero
accumulated lines emits no CodeBlock at all — `flushCodeBlock` is guarded
by `codeBlockContent.length > 0` — so the whole conversion falls back to
the single empty paragraph rather than producing an empty CodeBlock. -/
theorem C7_counterexample :
    parseTextToADFContent (str "```js\n```") = [paragraphNode [plainNode []]] ∧
    parseTextToADFContent (str "```js\n```") ≠ [codeBlockNode (str "js") []] :=
  ⟨rfl, by decide⟩

/-- C8 counterexample: the inline scanner has no underscore branch;
`_x_` stays one plain unmarked run instead of becoming an Italic run. -/
theorem C8_counterexample :
    parseInlineFormatting (str "_x_") = [plainNode (str "_x_")] ∧
    parseInlineFormatting (str "_x_") ≠ [emNode (str "x")] :=
  ⟨rfl, by decide⟩

/-- C9 counterexample: the heading branch stores the raw remainder text as
a single unmarked run and never calls the inline scanner, so `# **T**`
keeps the literal `**T**` while the inline scanner would produce a
Bold-marked `T`. -/
theorem C9_counterexample :
    parseTextToADFContent (str "# **T**") = [headingNode 1 (str "**T**")] ∧
    parseInlineFormatting (str "**T**") = [boldNode (str "T")] ∧
    (headingNode 1 (str "**T**")).getContent ≠ some (parseInlineFormatting (str "**T**")) :=
  ⟨rfl, rfl, by decide⟩

/-- C5: every conversion returns at least one block, and an input that is
empty or consists only of whitespace yields exactly one paragraph holding a
single unmarked empty text run. -/
theorem C5_document_never_empty (text : Str) :
    1 ≤ (parseTextToADFContent text).length ∧
    ((∀ c ∈ text, isWS c = true) →
      parseTextToADFContent text = [paragraphNode [plainNode []]]) := by
  constructor
  · simp only [parseTextToADFContent]
    split
    · next h => exact h
    · simp
  · intro hws
    have hlines : ∀ l ∈ splitNL text, ∀ c ∈ l, isWS c = true :=
      fun l hl c hc => hws c (splitNL_chars text l hl c hc)
    simp only [parseTextToADFContent]
    rw [segLoop_ws (splitNL text) hlines]
    rfl

/-- C5 witness: a single space is whitespace-only and yields the single
empty paragraph. -/
theorem C5_witness :
    1 ≤ (parseTextToADFContent (str " ")).length ∧
    parseTextToADFContent (str " ") = [paragraphNode [plainNode []]] :=
  ⟨(C5_document_never_empty (str " ")).1,
   (C5_document_never_empty (str " ")).2 (by decide)⟩

/-- C4 amended: when the opening backtick has no matching closing backtick,
the scanner emits the entire remaining text as a single Code-marked run
(the source lets `codeEnd` default to `text.length`), rather than treating
the backtick as a literal character. -/
theorem C4_amended_unclosed_backtick (s : Str) (h : btk ∉ s) :
    parseInlineFormatting (btk :: s) = [codeNode s] := by
  have hall : ∀ c ∈ s, (c != btk) = true := fun c hc => by
    simp only [bne_iff_ne, ne_eq]
    exact fun e => h (e ▸ hc)
  have hhead : s.head? ≠ some btk := by
    cases s with
    | nil => simp
    | cons a tl =>
      simp only [List.head?_cons, ne_eq, Option.some.injEq]
      exact fun e => h (e ▸ List.mem_cons_self a tl)
  simp only [parseInlineFormatting, List.length_cons]
  rw [inlineLoop, if_pos (show btk = btk ∧ s.head? ≠ some btk from ⟨rfl, hhead⟩),
    takeWhile_of_all hall, dropWhile_of_all hall]
  simp [inlineLoop, flushText]

/-- C4 witness: an unclosed backtick before `bc` yields one Code run `bc`. -/
theorem C4_witness : parseInlineFormatting (btk :: str "bc") = [codeNode (str "bc")] :=
  C4_amended_unclosed_backtick (str "bc") (by decide)

/-- C7 amended: a closing fence line flushes the code state; when at least
one line was accumulated this emits exactly one CodeBlock whose literal
text is the accumulated lines joined by newline (language defaulting to
`text`), but in the degenerate zero-line case `flushCodeBlock` is a no-op
and no CodeBlock is emitted. The closed-fence happy path is also checked
end to end. -/
theorem C7_amended_closing_fence (fuel : Nat) (line : Str) (rest : List Str) (st : SegState)
    (hcode : st.inCodeBlock = true) (hne : line ≠ []) (hf : isFence (jsTrim line) = true) :
    segLoop (fuel + 1) (line :: rest) st =
      segLoop fuel rest { flushCodeBlock st with inCodeBlock := false } ∧
    (st.codeBlockContent ≠ [] →
      (flushCodeBlock st).content = st.content ++
        [codeBlockNode
          (if st.codeBlockLanguage = [] then str "text" else st.codeBlockLanguage)
          (joinNL st.codeBlockContent)]) ∧
    (st.codeBlockContent = [] → flushCodeBlock st = st) ∧
    parseTextToADFContent (str "```js\nx\n```") = [codeBlockNode (str "js") (str "x")] := by
  refine ⟨?_, ?_, ?_, rfl⟩
  · rw [segLoop, if_neg hne]
    simp [hf, hcode]
  · intro hcb
    rw [flushCodeBlock, if_neg hcb]
  · intro hcb
    rw [flushCodeBlock, if_pos hcb]

/-- C7 witness: closing a fence with one buffered line `a` and language tag
`js` emits exactly the corresponding CodeBlock. -/
theorem C7_witness :
    (flushCodeBlock ⟨[], [], true, [str "a"], str "js"⟩).content =
      [codeBlockNode (str "js") (str "a")] :=
  (C7_amended_closing_fence 0 (str "```") [] ⟨[], [], true, [str "a"], str "js"⟩ rfl
    (by decide) (by decide)).2.1 (by decide)

/-- C8 amended: a single star delimiter with a later closing star does emit
an Italic-marked run, but the underscore is not a delimiter at all — any
text free of backticks and stars (underscores included) is passed through
as one plain unmarked run. -/
theorem C8_amended_star_only :
    (∀ s : Str, s ≠ [] → '*' ∉ s →
      parseInlineFormatting ('*' :: s ++ ['*']) = [emNode s]) ∧
    (∀ t : Str, t ≠ [] → (∀ c ∈ t, c ≠ btk ∧ c ≠ '*') →
      parseInlineFormatting t = [plainNode t]) := by
  constructor
  · intro s hne hstar
    have hall : ∀ c ∈ s, (c != '*') = true := fun c hc => by
      simp only [bne_iff_ne, ne_eq]
      exact fun e => hstar (e ▸ hc)
    obtain ⟨a, tl, rfl⟩ : ∃ a tl, s = a :: tl := by
      cases s with
      | nil => exact absurd rfl hne
      | cons a tl => exact ⟨a, tl, rfl⟩
    have hh : ((a :: tl) ++ ['*']).head? ≠ some '*' := by
      simp only [List.cons_append, List.head?_cons, ne_eq, Option.some.injEq]
      exact fun e => hstar (e ▸ List.mem_cons_self a tl)
    have hmem : '*' ∈ (a :: tl) ++ ['*'] :=
      List.mem_append_right _ (List.mem_singleton.mpr rfl)
    simp only [parseInlineFormatting]
    rw [List.cons_append]
    rw [show ('*' :: ((a :: tl) ++ ['*']) : Str).length =
        Nat.succ (((a :: tl) ++ ['*'] : Str).length) from rfl]
    rw [inlineLoop.eq_3,
      if_neg (show ¬('*' = btk ∧ ((a :: tl) ++ ['*']).head? ≠ some btk) from
        fun hc => absurd hc.1 (by decide)),
      if_neg (show ¬('*' = '*' ∧ ((a :: tl) ++ ['*']).head? = some '*') from
        fun hc => hh hc.2),
      if_pos (show '*' = '*' ∧ ((a :: tl) ++ ['*']).head? ≠ some '*' from ⟨rfl, hh⟩),
      if_pos hmem,
      takeWhile_append_of_all ['*'] hall,
      dropWhile_append_of_all ['*'] hall]
    simp [inlineLoop, flushText]
  · intro t hne hplain
    have h := inlineLoop_plain t t.length [] [] (le_refl _) hplain
    simp only [parseInlineFormatting, h, List.nil_append]
    simp [flushText, hne]

/-- C8 witness: `*x*` becomes one Italic run `x`; `_x_` stays one plain run
`_x_`. -/
theorem C8_witness :
    parseInlineFormatting (str "*x*") = [emNode (str "x")] ∧
    parseInlineFormatting (str "_x_") = [plainNode (str "_x_")] := by
  constructor
  · exact C8_amended_star_only.1 (str "x") (by decide) (by decide)
  · exact C8_amended_star_only.2 (str "_x_") (by decide) (by decide)

/-- C9 amended: a heading line (single-line input whose trimmed form starts
with `#`) produces a Heading block whose content is the raw remainder text
as a single unmarked run — the level is the clamped count of leading `#`
and the text is the remainder after the `#` run and following whitespace,
but it is not passed through the inline scanner. -/
theorem C9_amended_heading_raw (t : Str) (hn : '\n' ∉ t) (hh : isHeading (jsTrim t) = true) :
    parseTextToADFContent t =
      [headingNode (min 6 ((jsTrim t).takeWhile (fun c => c == '#')).length)
        (((jsTrim t).dropWhile (fun c => c == '#')).dropWhile isWS)] := by
  have hne : t ≠ [] := by
    intro e
    rw [e] at hh
    exact absurd hh (by decide)
  obtain ⟨tl, htl⟩ : ∃ tl, jsTrim t = '#' :: tl := by
    cases hjt : jsTrim t with
    | nil => rw [hjt] at hh; exact absurd hh (by decide)
    | cons c tl =>
      rw [hjt] at hh
      have hc : c = '#' := by simpa [isHeading] using hh
      exact ⟨tl, by rw [hc]⟩
  have hfence : isFence (jsTrim t) = false := by
    rw [htl]
    apply decide_eq_false
    intro hcontra
    rw [show (('#' :: tl).take 3 : Str) = '#' :: tl.take 2 from rfl] at hcontra
    exact absurd (List.cons.inj hcontra).1 (by decide)
  have hsplit : splitNL t = [t] := splitNL_no_newline hn
  simp only [parseTextToADFContent, hsplit]
  rw [show ([t] : List Str).length = 0 + 1 from rfl, segLoop, if_neg hne]
  simp [hfence, hh, initState, flushParagraph, flushCodeBlock, segLoop]

/-- C9 witness: the plain heading `# Title` yields a level-1 Heading whose
content is the single unmarked run `Title`. -/
theorem C9_witness : parseTextToADFContent (str "# Title") = [headingNode 1 (str "Title")] := by
  have h := C9_amended_heading_raw (str "# Title") (by decide) (by decide)
  exact h

end JiraFormatter
